import Mathlib

/-!
Shallow embedding of the log-ingestion pipeline in the repository file
src/log_parser.py, together with theorems settling the specification
claims about it.  Strings are Lean strings (sequences of Unicode code
points, matching Python's str); the splitting primitives reproduce the
exact semantics of the Python string methods the source calls.
-/

namespace LogParser

/-- A parsed log entry: the named tuple LogEntry of src/log_parser.py with
fields date, time, level and message. -/
structure LogEntry where
  date : String
  time : String
  level : String
  message : String
deriving DecidableEq

/-- Scan a character list for the first occurrence of the separator
character.  Returns the characters before it and, when the separator was
found, the characters after it.  This is the single step of Python's
str.split with an explicit one-character separator. -/
def breakAt (sep : Char) : List Char → List Char × Option (List Char)
  | [] => ([], none)
  | c :: cs =>
    if c = sep then ([], some cs)
    else
      let r := breakAt sep cs
      (c :: r.1, r.2)

/-- Python str.split(sep, maxsplit) on a character list: split at each
occurrence of the one-character separator, at most maxsplit times, keeping
empty segments.  Consecutive separators therefore produce empty segments,
and no other character delimits. -/
def py_split (sep : Char) : Nat → List Char → List (List Char)
  | 0, cs => [cs]
  | n + 1, cs =>
    match breakAt sep cs with
    | (_, none) => [cs]
    | (pre, some post) => pre :: py_split sep n post

/-- parse_log_line of src/log_parser.py: line.split(' ', 3) must yield
exactly four parts (the tuple unpacking), else a ValueError carrying the
offending line is raised; modelled as Except. -/
def parse_log_line (line : String) : Except String LogEntry :=
  match py_split ' ' 3 line.data with
  | [d, t, l, m] =>
    .ok ⟨String.mk d, String.mk t, String.mk l, String.mk m⟩
  | _ =>
    .error ("Log line '" ++ line ++ "' is not in the expected format.")

/-- filter_logs_by_level of src/log_parser.py: the list comprehension
keeping the logs whose level equals the given level exactly. -/
def filter_logs_by_level (logs : List LogEntry) (level : String) : List LogEntry :=
  logs.filter (fun log => log.level == level)

/-- One defaultdict(int) increment: bump the count stored under the given
key, appending a fresh entry with count 1 when the key is absent.  The
association list preserves Python dict insertion order (first occurrence
first). -/
def bump (acc : List (String × Nat)) (lvl : String) : List (String × Nat) :=
  match acc with
  | [] => [(lvl, 1)]
  | (k, v) :: rest => if k = lvl then (k, v + 1) :: rest else (k, v) :: bump rest lvl

/-- count_logs_by_level of src/log_parser.py: fold the defaultdict
increment over the logs, starting from the empty mapping. -/
def count_logs_by_level (logs : List LogEntry) : List (String × Nat) :=
  logs.foldl (fun acc log => bump acc log.level) []

/-- Python str.upper as applied by the command-line glue of
src/log_parser.py to the level argument; modelled for the ASCII letters
such arguments are made of. -/
def py_upper (s : String) : String :=
  String.mk (s.data.map Char.toUpper)

/-- The level filtering exactly as the command-line glue performs it
(lines 150-152 of src/log_parser.py): the requested level argument is
uppercased before filter_logs_by_level runs. -/
def pipeline_filter (logs : List LogEntry) (arg : String) : List LogEntry :=
  filter_logs_by_level logs (py_upper arg)

/-- The space-join of a record's four fields, in field order, as printed
for each record by display_selected_level of src/log_parser.py. -/
def record_line (log : LogEntry) : String :=
  log.date ++ " " ++ log.time ++ " " ++ log.level ++ " " ++ log.message

/-- display_selected_level of src/log_parser.py, as the list of lines it
prints: a header naming the level, then the space-join of each record. -/
def display_selected_level (selected_level : String) (filtered_logs : List LogEntry) : List String :=
  ("Деталі логів для рівня '" ++ selected_level ++ "':") :: filtered_logs.map record_line

/-- Python max over a list of naturals: raises ValueError on an empty
sequence, as max(generator) does in display_log_counts. -/
def py_max (l : List Nat) : Except String Nat :=
  match l with
  | [] => .error "max() arg is an empty sequence"
  | x :: xs => .ok (xs.foldl Nat.max x)

/-- The first column header of display_log_counts. -/
def header_level : String := "Рівень логування"

/-- The second column header of display_log_counts. -/
def header_count : String := "Кількість"

/-- The separator row of display_log_counts: the fixed string
"-" * 17 + "|" + "-" * 10, independent of the data. -/
def separator : String :=
  String.mk (List.replicate 17 '-') ++ "|" ++ String.mk (List.replicate 10 '-')

/-- Modelled from the spec: the separator rule as the specification
describes it, each column's dashes sized to the wider of the header text
and the longest value in that column; used only to compare the specified
rule with the implemented one. -/
def separator_spec (w1 w2 : Nat) : String :=
  String.mk (List.replicate w1 '-') ++ "|" ++ String.mk (List.replicate w2 '-')

/-- Python str left-justification f-string padding: pad with spaces on the
right up to the width, leaving the string unchanged when already wide
enough. -/
def ljust (s : String) (w : Nat) : String :=
  s ++ String.mk (List.replicate (w - s.length) ' ')

/-- max_level_len of display_log_counts: the larger of the first header's
length and the longest level key, where max over the keys raises on an
empty mapping. -/
def max_level_len (counts : List (String × Nat)) : Except String Nat := do
  let m ← py_max (counts.map (fun p => p.1.length))
  pure (Nat.max header_level.length m)

/-- max_count_len of display_log_counts: the larger of the second header's
length and the longest printed count, where max over the values raises on
an empty mapping. -/
def max_count_len (counts : List (String × Nat)) : Except String Nat := do
  let m ← py_max (counts.map (fun p => (toString p.2).length))
  pure (Nat.max header_count.length m)

/-- The header row of display_log_counts: both headers left-justified to
the computed column widths, joined by " | ". -/
def header_row (w1 w2 : Nat) : String :=
  ljust header_level w1 ++ " | " ++ ljust header_count w2

/-- One data row of display_log_counts: level and printed count
left-justified to the computed column widths, joined by " | ". -/
def data_row (w1 w2 : Nat) (p : String × Nat) : String :=
  ljust p.1 w1 ++ " | " ++ ljust (toString p.2) w2

/-- display_log_counts of src/log_parser.py, as the list of lines it
prints: header row, the fixed separator, then one row per level in
insertion order.  The width computations run first and raise on an empty
mapping, exactly as the Python max calls do. -/
def display_log_counts (counts : List (String × Nat)) : Except String (List String) := do
  let w1 ← max_level_len counts
  let w2 ← max_count_len counts
  pure (header_row w1 w2 :: separator :: counts.map (data_row w1 w2))

/-- Python file.readlines on a character list: the lines of the text with
their trailing newline characters kept; a final segment without a newline
is kept as-is, and empty input yields no lines. -/
def readlines_ch : List Char → List (List Char)
  | [] => []
  | c :: cs =>
    if c = '\n' then ['\n'] :: readlines_ch cs
    else
      match readlines_ch cs with
      | [] => [[c]]
      | l :: ls => (c :: l) :: ls

/-- The loading step of load_logs in src/log_parser.py on the content of a
readable file: file.readlines(), which keeps each line's trailing newline
character. -/
def load_lines (content : String) : List String :=
  (readlines_ch content.data).map String.mk

/-- The parsing stage of the pipeline (lines 142 of src/log_parser.py):
parse every line in order, aborting with the first parse error, as the
list comprehension does when parse_log_line raises. -/
def parse_all : List String → Except String (List LogEntry)
  | [] => .ok []
  | line :: rest =>
    match parse_log_line line with
    | .error e => .error e
    | .ok entry =>
      match parse_all rest with
      | .error e => .error e
      | .ok entries => .ok (entry :: entries)

/-- The pipeline run of src/log_parser.py after a successful load (lines
140-153): parse all lines, render the counts table, and when a level
argument was supplied, uppercase it, filter and render the detail
section.  The result is the full list of printed lines, or the first
fatal error with nothing printed. -/
def run_pipeline (lines : List String) (level_arg : Option String) : Except String (List String) := do
  let logs ← parse_all lines
  let table ← display_log_counts (count_logs_by_level logs)
  match level_arg with
  | none => pure table
  | some arg =>
    pure (table ++ display_selected_level (py_upper arg) (filter_logs_by_level logs (py_upper arg)))

/-- Whitespace test for the run-based segmentation the specification
describes. -/
def is_ws (c : Char) : Bool :=
  c = ' ' || c = '\t' || c = '\n' || c = '\r'

/-- Accumulator-passing tokenizer behind ws_tokens: collects the current
token in reverse and emits it at each whitespace run. -/
def ws_tokens_aux : List Char → List Char → List (List Char)
  | acc, [] => if acc = [] then [] else [acc.reverse]
  | acc, c :: cs =>
    if is_ws c then
      if acc = [] then ws_tokens_aux [] cs else acc.reverse :: ws_tokens_aux [] cs
    else ws_tokens_aux (c :: acc) cs

/-- Modelled from the spec: segmentation of a line into whitespace-run
delimited segments, discarding empty segments, following the
specification's words for the splitting rule of EntryParser; used only to
compare the specified rule with the implemented one. -/
def ws_tokens (s : String) : List (List Char) :=
  ws_tokens_aux [] s.data

/-- When breakAt finds no separator, it returns the whole input and the
input indeed contains no separator. -/
theorem breakAt_none (sep : Char) (cs : List Char) :
    ∀ pre, breakAt sep cs = (pre, none) → pre = cs ∧ sep ∉ cs := by
  induction cs with
  | nil =>
    intro pre h
    simp [breakAt] at h
    simp [h]
  | cons c cs ih =>
    intro pre h
    by_cases hc : c = sep
    · simp [breakAt, hc] at h
    · simp [breakAt, hc] at h
      obtain ⟨h1, h2⟩ := h
      have hr : breakAt sep cs = ((breakAt sep cs).1, none) := by
        rw [← h2]
      obtain ⟨hpre, hmem⟩ := ih _ hr
      constructor
      · rw [← h1, hpre]
      · intro hm
        rcases List.mem_cons.mp hm with h | h
        · exact hc h.symm
        · exact hmem h

/-- When breakAt finds a separator, the input decomposes as the
separator-free prefix, the separator, and the rest. -/
theorem breakAt_some (sep : Char) (cs : List Char) :
    ∀ pre post, breakAt sep cs = (pre, some post) → cs = pre ++ sep :: post ∧ sep ∉ pre := by
  induction cs with
  | nil => intro pre post h; simp [breakAt] at h
  | cons c cs ih =>
    intro pre post h
    by_cases hc : c = sep
    · simp [breakAt, hc] at h
      obtain ⟨h1, h2⟩ := h
      subst h1
      subst h2
      simp [hc]
    · simp [breakAt, hc] at h
      obtain ⟨h1, h2⟩ := h
      have hr : breakAt sep cs = ((breakAt sep cs).1, some post) := by
        rw [← h2]
      obtain ⟨heq, hmem⟩ := ih _ _ hr
      constructor
      · rw [← h1]
        simpa using congrArg (fun l => c :: l) heq
      · intro hm
        rw [← h1] at hm
        rcases List.mem_cons.mp hm with h | h
        · exact hc h.symm
        · exact hmem h

/-- breakAt on an input made of a separator-free prefix, the separator and
a rest finds exactly that decomposition. -/
theorem breakAt_append (sep : Char) (pre rest : List Char) (h : sep ∉ pre) :
    breakAt sep (pre ++ sep :: rest) = (pre, some rest) := by
  induction pre with
  | nil => simp [breakAt]
  | cons c cs ih =>
    have hc : ¬(c = sep) := by
      intro hEq; exact h (by simp [hEq])
    have hcs : sep ∉ cs := fun hm => h (List.mem_cons_of_mem _ hm)
    simp [breakAt, hc, ih hcs]

/-- breakAt on a separator-free input finds nothing. -/
theorem breakAt_no_sep (sep : Char) (cs : List Char) (h : sep ∉ cs) :
    breakAt sep cs = (cs, none) := by
  induction cs with
  | nil => rfl
  | cons c cs ih =>
    have hc : ¬(c = sep) := by
      intro hEq; exact h (by simp [hEq])
    have hcs : sep ∉ cs := fun hm => h (List.mem_cons_of_mem _ hm)
    simp [breakAt, hc, ih hcs]

/-- The number of parts py_split produces: one more than the number of
separator occurrences, capped by the maxsplit bound. -/
theorem py_split_length (sep : Char) (n : Nat) (cs : List Char) :
    (py_split sep n cs).length = min n (cs.count sep) + 1 := by
  induction n generalizing cs with
  | zero => simp [py_split]
  | succ n ih =>
    rcases h : breakAt sep cs with ⟨pre, opt⟩
    rcases opt with _ | post
    · obtain ⟨-, hmem⟩ := breakAt_none sep cs pre h
      have hcount : cs.count sep = 0 := List.count_eq_zero_of_not_mem hmem
      simp [py_split, h, hcount]
    · obtain ⟨heq, hmem⟩ := breakAt_some sep cs pre post h
      have hcount : cs.count sep = post.count sep + 1 := by
        rw [heq]
        simp [List.count_append, List.count_cons, List.count_eq_zero_of_not_mem hmem]
      simp [py_split, h, ih, hcount, Nat.succ_min_succ]

/-- py_split peels one separator-free segment off the front when the
budget allows. -/
theorem py_split_cons (sep : Char) (n : Nat) (pre rest : List Char) (h : sep ∉ pre) :
    py_split sep (n + 1) (pre ++ sep :: rest) = pre :: py_split sep n rest := by
  simp [py_split, breakAt_append sep pre rest h]

/-- py_split leaves a separator-free input whole. -/
theorem py_split_no_sep (sep : Char) (n : Nat) (cs : List Char) (h : sep ∉ cs) :
    py_split sep n cs = [cs] := by
  cases n with
  | zero => rfl
  | succ n => simp [py_split, breakAt_no_sep sep cs h]

/-- Splitting a well-formed line of three separator-free segments followed
by an arbitrary remainder, with maxsplit three, recovers the four parts. -/
theorem py_split_three (sep : Char) (d t l m : List Char)
    (hd : sep ∉ d) (ht : sep ∉ t) (hl : sep ∉ l) :
    py_split sep 3 (d ++ sep :: (t ++ sep :: (l ++ sep :: m))) = [d, t, l, m] := by
  rw [py_split_cons sep 2 d _ hd, py_split_cons sep 1 t _ ht, py_split_cons sep 0 l _ hl]
  rfl

/-- The last part py_split produces is a tail of the input: either the
whole input, or everything after some separator occurrence. -/
theorem py_split_last (sep : Char) (n : Nat) (cs : List Char) :
    ∃ parts last, py_split sep n cs = parts ++ [last] ∧
      (last = cs ∨ ∃ u, cs = u ++ sep :: last) := by
  induction n generalizing cs with
  | zero => exact ⟨[], cs, rfl, Or.inl rfl⟩
  | succ n ih =>
    rcases h : breakAt sep cs with ⟨pre, opt⟩
    rcases opt with _ | post
    · exact ⟨[], cs, by simp [py_split, h], Or.inl rfl⟩
    · obtain ⟨heq, -⟩ := breakAt_some sep cs pre post h
      obtain ⟨parts, last, hps, hor⟩ := ih post
      refine ⟨pre :: parts, last, by simp [py_split, h, hps], Or.inr ?_⟩
      rcases hor with hl | ⟨u, hu⟩
      · exact ⟨pre, by rw [heq, hl]⟩
      · exact ⟨pre ++ sep :: u, by rw [heq, hu]; simp⟩

/-- A line with fewer than three space characters does not split into four
parts, so parse_log_line raises the malformed-line error on it. -/
theorem parse_error_of_count (line : String) (h : line.data.count ' ' < 3) :
    parse_log_line line
      = .error ("Log line '" ++ line ++ "' is not in the expected format.") := by
  have hlen : (py_split ' ' 3 line.data).length = line.data.count ' ' + 1 := by
    rw [py_split_length, min_eq_right (Nat.le_of_lt h)]
  rcases hs : py_split ' ' 3 line.data with _ | ⟨a, _ | ⟨b, _ | ⟨c, _ | ⟨d, rest⟩⟩⟩⟩ <;>
    rw [hs] at hlen <;>
    simp only [List.length_cons, List.length_nil, List.length_append] at hlen <;>
    simp [parse_log_line, hs] <;> omega

/-- A line with at least three space characters splits into exactly four
parts, so parse_log_line succeeds on it. -/
theorem parse_ok_of_count (line : String) (h : 3 ≤ line.data.count ' ') :
    ∃ e, parse_log_line line = .ok e := by
  have hlen : (py_split ' ' 3 line.data).length = 4 := by
    rw [py_split_length, min_eq_left h]
  rcases hs : py_split ' ' 3 line.data with _ | ⟨a, _ | ⟨b, _ | ⟨c, _ | ⟨d, _ | ⟨e, rest⟩⟩⟩⟩⟩
  · rw [hs] at hlen; simp at hlen
  · rw [hs] at hlen; simp at hlen
  · rw [hs] at hlen; simp at hlen
  · rw [hs] at hlen; simp at hlen
  · exact ⟨⟨String.mk a, String.mk b, String.mk c, String.mk d⟩,
      by simp [parse_log_line, hs]⟩
  · exfalso
    rw [hs] at hlen
    simp only [List.length_cons] at hlen
    omega

/-- Parsing the single-space join of three space-free segments and a
remainder recovers exactly those four fields. -/
theorem parse_join (d t l m : String)
    (hd : ' ' ∉ d.data) (ht : ' ' ∉ t.data) (hl : ' ' ∉ l.data) :
    parse_log_line (d ++ " " ++ t ++ " " ++ l ++ " " ++ m) = .ok ⟨d, t, l, m⟩ := by
  have hdata : (d ++ " " ++ t ++ " " ++ l ++ " " ++ m).data
      = d.data ++ ' ' :: (t.data ++ ' ' :: (l.data ++ ' ' :: m.data)) := by
    simp [String.data_append]
  rw [parse_log_line, hdata, py_split_three ' ' d.data t.data l.data m.data hd ht hl]

/-- C6: a line made of three space-free tokens, single spaces, and an
arbitrary message remainder parses into exactly those four fields, the
message kept verbatim with all its internal whitespace. -/
theorem parse_wellformed_line (d t l m : String)
    (hd : ' ' ∉ d.data) (ht : ' ' ∉ t.data) (hl : ' ' ∉ l.data) :
    parse_log_line (d ++ " " ++ t ++ " " ++ l ++ " " ++ m) = .ok ⟨d, t, l, m⟩ :=
  parse_join d t l m hd ht hl

/-- Witness for parse_wellformed_line at a concrete line whose message
holds a double space. -/
theorem parse_wellformed_line_witness :
    parse_log_line ("2024-01-01" ++ " " ++ "10:00:00" ++ " " ++ "INFO" ++ " " ++ "user  logged in")
      = .ok ⟨"2024-01-01", "10:00:00", "INFO", "user  logged in"⟩ :=
  parse_wellformed_line "2024-01-01" "10:00:00" "INFO" "user  logged in"
    (by decide) (by decide) (by decide)

/-- C10: parsing the single-space join of a record's four fields, as
display_selected_level prints it, returns the record itself whenever the
date, time and level fields hold no space character. -/
theorem detail_roundtrip (e : LogEntry)
    (hd : ' ' ∉ e.date.data) (ht : ' ' ∉ e.time.data) (hl : ' ' ∉ e.level.data) :
    parse_log_line (record_line e) = .ok e := by
  rw [record_line, parse_join e.date e.time e.level e.message hd ht hl]

/-- Witness for detail_roundtrip at a concrete record. -/
theorem detail_roundtrip_witness :
    parse_log_line (record_line ⟨"2024-01-01", "10:00:01", "ERROR", "failed to connect"⟩)
      = .ok ⟨"2024-01-01", "10:00:01", "ERROR", "failed to connect"⟩ :=
  detail_roundtrip ⟨"2024-01-01", "10:00:01", "ERROR", "failed to connect"⟩
    (by decide) (by decide) (by decide)

/-- C3 counterexample: the line "a  b c" has only three whitespace-run
segments yet parses successfully (the double space yields an empty time
field), and the tab-separated line has four whitespace-run segments yet
fails, because the code splits on single space characters, not on
whitespace runs. -/
theorem parse_run_splitting_refuted :
    ((ws_tokens "a  b c").length < 4 ∧
      parse_log_line "a  b c" = .ok ⟨"a", "", "b", "c"⟩) ∧
    ((ws_tokens "a\tb\tc\td").length = 4 ∧
      parse_log_line "a\tb\tc\td"
        = .error ("Log line '" ++ "a\tb\tc\td" ++ "' is not in the expected format.")) := by
  exact ⟨⟨by decide, by rfl⟩, ⟨by decide, by rfl⟩⟩

/-- C3 amended: parse_log_line fails with the malformed-line error exactly
when the line holds fewer than three space characters; the delimiters are
single spaces, so runs and tabs are not collapsed. -/
theorem parse_fails_iff_few_spaces (line : String) :
    parse_log_line line
      = .error ("Log line '" ++ line ++ "' is not in the expected format.")
      ↔ line.data.count ' ' < 3 := by
  constructor
  · intro herr
    by_contra hc
    obtain ⟨e, he⟩ := parse_ok_of_count line (Nat.le_of_not_lt hc)
    rw [he] at herr
    exact Except.noConfusion herr
  · exact parse_error_of_count line

/-- C9: filtering is idempotent, since it keeps exactly the records whose
level equals the requested one. -/
theorem filter_idempotent (logs : List LogEntry) (level : String) :
    filter_logs_by_level (filter_logs_by_level logs level) level
      = filter_logs_by_level logs level := by
  simp [filter_logs_by_level, List.filter_filter]

/-- Bumping a level's count raises the total of all counts by one. -/
theorem bump_sum (acc : List (String × Nat)) (lvl : String) :
    ((bump acc lvl).map Prod.snd).sum = (acc.map Prod.snd).sum + 1 := by
  induction acc with
  | nil => simp [bump]
  | cons p rest ih =>
    rcases p with ⟨k, v⟩
    by_cases hk : k = lvl
    · simp [bump, hk]
      omega
    · simp [bump, hk, ih]
      omega

/-- Folding the defaultdict increment over records adds one to the total
per record, from any starting mapping. -/
theorem count_foldl_sum (logs : List LogEntry) :
    ∀ acc : List (String × Nat),
      ((logs.foldl (fun a log => bump a log.level) acc).map Prod.snd).sum
        = (acc.map Prod.snd).sum + logs.length := by
  induction logs with
  | nil => intro acc; simp
  | cons log rest ih =>
    intro acc
    simp only [List.foldl_cons, List.length_cons]
    rw [ih (bump acc log.level), bump_sum]
    omega

/-- C7: the counts produced by count_logs_by_level total exactly the
number of records counted. -/
theorem count_logs_by_level_sum (logs : List LogEntry) :
    ((count_logs_by_level logs).map Prod.snd).sum = logs.length := by
  simpa [count_logs_by_level] using count_foldl_sum logs []

/-- C2 counterexample: filter_logs_by_level itself is not
case-insensitive: on a record whose level is "INFO", filtering by "info"
and by "INFO" disagree. -/
theorem filter_case_insensitive_refuted :
    filter_logs_by_level [⟨"2024-01-01", "10:00:00", "INFO", "started"⟩] "info"
      ≠ filter_logs_by_level [⟨"2024-01-01", "10:00:00", "INFO", "started"⟩] "INFO" := by
  decide

/-- C2 amended: filter_logs_by_level compares levels by exact string
equality; the insensitivity the program shows between the arguments
"info" and "INFO" comes only from the command-line glue uppercasing the
requested level before filtering. -/
theorem filter_case_sensitivity (logs : List LogEntry) :
    pipeline_filter logs "info" = pipeline_filter logs "INFO" ∧
    ∀ level r, r ∈ filter_logs_by_level logs level → r.level = level := by
  constructor
  · have hup : py_upper "info" = py_upper "INFO" := by decide
    rw [pipeline_filter, pipeline_filter, hup]
  · intro level r hr
    simpa using (List.mem_filter.mp hr).2

/-- Witness for filter_case_sensitivity: on a concrete one-record log the
pipeline-level filterings by "info" and by "INFO" agree. -/
theorem filter_case_sensitivity_witness :
    pipeline_filter [(⟨"2024-01-01", "10:00:00", "INFO", "started"⟩ : LogEntry)] "info"
      = pipeline_filter [⟨"2024-01-01", "10:00:00", "INFO", "started"⟩] "INFO" :=
  (filter_case_sensitivity [⟨"2024-01-01", "10:00:00", "INFO", "started"⟩]).1

/-- C1 counterexample: on the empty mapping display_log_counts does not
render a degenerate table: the width computation takes max over an empty
sequence and raises. -/
theorem display_empty_raises :
    display_log_counts [] = .error "max() arg is an empty sequence" := rfl

/-- C1 amended: display_log_counts returns normally on every non-empty
mapping. -/
theorem display_ok_of_nonempty (counts : List (String × Nat)) (h : counts ≠ []) :
    (display_log_counts counts).isOk = true := by
  cases counts with
  | nil => exact absurd rfl h
  | cons p rest => rfl

/-- Witness for display_ok_of_nonempty on a one-level mapping. -/
theorem display_ok_of_nonempty_witness :
    (display_log_counts [("INFO", 2)]).isOk = true :=
  display_ok_of_nonempty [("INFO", 2)] (by decide)

/-- C5 counterexample: on a mapping whose level key is wider than the
fixed rule, the rendered separator is not the per-column-sized rule the
specification describes; it stays the constant 17-dash, bar, 10-dash
string although the computed column widths are 21 and 9. -/
theorem separator_sizing_refuted :
    display_log_counts [("AUTHENTICATIONFAILURE", 1)]
      = .ok [header_row 21 9, separator,
          data_row 21 9 ("AUTHENTICATIONFAILURE", 1)] ∧
    separator ≠ separator_spec 21 9 := by
  exact ⟨by rfl, by decide⟩

/-- C5 amended: for every non-empty mapping the header and data rows are
left-justified to per-column computed widths (the wider of the header
text and the longest value), while the separator row is the fixed string
independent of those widths. -/
theorem separator_fixed (counts : List (String × Nat)) (h : counts ≠ []) :
    ∃ w1 w2, max_level_len counts = .ok w1 ∧ max_count_len counts = .ok w2 ∧
      display_log_counts counts
        = .ok (header_row w1 w2 :: separator :: counts.map (data_row w1 w2)) := by
  cases counts with
  | nil => exact absurd rfl h
  | cons p rest => exact ⟨_, _, rfl, rfl, rfl⟩

/-- Witness for separator_fixed: the second output line of a concrete
rendering is the fixed separator. -/
theorem separator_fixed_witness :
    (display_log_counts [("ERROR", 10)]).toOption.bind (fun out => out[1]?)
      = some separator := by
  obtain ⟨w1, w2, -, -, h3⟩ := separator_fixed [("ERROR", 10)] (by decide)
  rw [h3]
  rfl

/-- readlines never produces an empty line. -/
theorem readlines_ch_mem_ne_nil (cs : List Char) :
    ∀ l ∈ readlines_ch cs, l ≠ [] := by
  induction cs with
  | nil =>
    intro l hl
    simp [readlines_ch] at hl
  | cons c cs ih =>
    intro l hl
    by_cases hc : c = '\n'
    · simp only [readlines_ch, if_pos hc] at hl
      rcases List.mem_cons.mp hl with h | h
      · subst h; simp
      · exact ih l h
    · rcases hm : readlines_ch cs with _ | ⟨l0, ls⟩
      · simp only [readlines_ch, if_neg hc, hm] at hl
        rcases List.mem_cons.mp hl with h | h
        · subst h; simp
        · simp at h
      · simp only [readlines_ch, if_neg hc, hm] at hl
        rcases List.mem_cons.mp hl with h | h
        · subst h; simp
        · exact ih l (by rw [hm]; exact List.mem_cons_of_mem _ h)

/-- readlines on non-empty text produces at least one line. -/
theorem readlines_ch_ne_nil (cs : List Char) (h : cs ≠ []) : readlines_ch cs ≠ [] := by
  cases cs with
  | nil => exact absurd rfl h
  | cons c cs =>
    by_cases hc : c = '\n'
    · simp [readlines_ch, hc]
    · rcases hm : readlines_ch cs with _ | ⟨l0, ls⟩ <;> simp [readlines_ch, hc, hm]

/-- Lines produced by readlines from newline-terminated text all end with
the newline character. -/
theorem readlines_ch_ends (cs : List Char) :
    (∃ u, cs = u ++ ['\n']) → ∀ l ∈ readlines_ch cs, ∃ v, l = v ++ ['\n'] := by
  induction cs with
  | nil =>
    rintro ⟨u, hu⟩
    exact absurd hu (by simp)
  | cons c cs ih =>
    rintro ⟨u, hu⟩ l hl
    rcases eq_or_ne cs [] with hcs | hcs
    · subst hcs
      have hc : c = '\n' := by
        cases u with
        | nil => simpa using hu
        | cons x xs => simp at hu
      subst hc
      simp [readlines_ch] at hl
      subst hl
      exact ⟨[], rfl⟩
    · have hcs' : ∃ u, cs = u ++ ['\n'] := by
        cases u with
        | nil =>
          simp at hu
          exact absurd hu.2 hcs
        | cons x xs =>
          rw [List.cons_append] at hu
          exact ⟨xs, (List.cons.injEq .. ▸ hu).2⟩
      by_cases hc : c = '\n'
      · simp only [readlines_ch, if_pos hc] at hl
        rcases List.mem_cons.mp hl with h1 | h1
        · exact ⟨[], by rw [h1]; rfl⟩
        · exact ih hcs' l h1
      · rcases hm : readlines_ch cs with _ | ⟨l0, ls⟩
        · exact absurd hm (readlines_ch_ne_nil cs hcs)
        · simp only [readlines_ch, if_neg hc, hm] at hl
          rcases List.mem_cons.mp hl with h1 | h1
          · obtain ⟨v, hv⟩ := ih hcs' l0 (by rw [hm]; exact List.mem_cons_self l0 ls)
            exact ⟨c :: v, by rw [h1, hv]; rfl⟩
          · exact ih hcs' l (by rw [hm]; exact List.mem_cons_of_mem _ h1)

/-- A successful parse means the line split into exactly four parts, and
the record's fields are those parts. -/
theorem parse_ok_shape (line : String) (e : LogEntry)
    (hparse : parse_log_line line = .ok e) :
    py_split ' ' 3 line.data
      = [e.date.data, e.time.data, e.level.data, e.message.data] := by
  rcases hs : py_split ' ' 3 line.data with _ | ⟨a, _ | ⟨b, _ | ⟨c, _ | ⟨d, _ | ⟨x, rest⟩⟩⟩⟩⟩ <;>
      simp only [parse_log_line, hs] at hparse <;>
      first
        | exact Except.noConfusion hparse
        | skip
  injection hparse with he
  rw [← he]

/-- When a line ends with a newline and parses, the parsed message keeps
that trailing newline: the message is the tail segment of the line. -/
theorem parse_message_ends (line : String) (e : LogEntry)
    (hparse : parse_log_line line = .ok e)
    (hnl : ∃ u, line.data = u ++ ['\n']) :
    ∃ w, e.message.data = w ++ ['\n'] := by
  obtain ⟨parts, last, hps, hor⟩ := py_split_last ' ' 3 line.data
  have hs := parse_ok_shape line e hparse
  have hld : e.message.data = last := by
    have h1 : (parts ++ [last]).getLast? = some last := List.getLast?_concat parts
    rw [← hps, hs] at h1
    simpa using h1
  rw [hld]
  obtain ⟨u, hu⟩ := hnl
  rcases hor with hl | ⟨u2, hu2⟩
  · exact ⟨u, by rw [hl, hu]⟩
  · rw [hu] at hu2
    rcases List.eq_nil_or_concat' last with hlast | ⟨l2, y, hlast⟩
    · subst hlast
      have h2 : (u2 ++ [' ']) = u ++ ['\n'] := by simpa using hu2.symm
      have h3 := (List.append_inj' h2 rfl).2
      simp at h3
    · subst hlast
      have h2 : (u2 ++ ' ' :: l2) ++ [y] = u ++ ['\n'] := by
        rw [List.append_assoc, List.cons_append]
        exact hu2.symm
      have h3 := (List.append_inj' h2 rfl).2
      simp at h3
      exact ⟨l2, by rw [h3]⟩

/-- C4 counterexample: loading a newline-terminated line keeps the
terminator on the RawLine, and the parsed record's message ends with it. -/
theorem load_no_newline_refuted :
    load_lines "2024-01-01 10:00:00 INFO started\n"
      = ["2024-01-01 10:00:00 INFO started\n"] ∧
    ("2024-01-01 10:00:00 INFO started\n").data.getLast? = some '\n' ∧
    parse_log_line "2024-01-01 10:00:00 INFO started\n"
      = .ok ⟨"2024-01-01", "10:00:00", "INFO", "started\n"⟩ ∧
    ("started\n" : String).data.getLast? = some '\n' :=
  ⟨rfl, rfl, rfl, rfl⟩

/-- C4 amended: every line the loading step produces from
newline-terminated content ends with the newline character, and the
message of a record parsed from such a line ends with it too. -/
theorem load_lines_trailing_newline (content line : String) (e : LogEntry)
    (hmem : line ∈ load_lines content)
    (hnl : content.data.getLast? = some '\n')
    (hparse : parse_log_line line = .ok e) :
    line.data.getLast? = some '\n' ∧ e.message.data.getLast? = some '\n' := by
  obtain ⟨u, hu⟩ := List.getLast?_eq_some_iff.mp hnl
  obtain ⟨lc, hlc, hline⟩ := List.mem_map.mp hmem
  have hdata : line.data = lc := by rw [← hline]
  obtain ⟨v, hv⟩ := readlines_ch_ends content.data ⟨u, hu⟩ lc hlc
  have h1 : line.data.getLast? = some '\n' := by
    rw [hdata, hv]
    exact List.getLast?_concat v
  refine ⟨h1, ?_⟩
  obtain ⟨w, hw⟩ := parse_message_ends line e hparse ⟨v, by rw [hdata, hv]⟩
  rw [hw]
  exact List.getLast?_concat w

/-- Witness for load_lines_trailing_newline on a concrete one-line file
content. -/
theorem load_lines_trailing_newline_witness :
    ("2024-01-01 10:00:01 ERROR failed\n").data.getLast? = some '\n' ∧
    (⟨"2024-01-01", "10:00:01", "ERROR", "failed\n"⟩ : LogEntry).message.data.getLast?
      = some '\n' :=
  load_lines_trailing_newline "2024-01-01 10:00:01 ERROR failed\n"
    "2024-01-01 10:00:01 ERROR failed\n" ⟨"2024-01-01", "10:00:01", "ERROR", "failed\n"⟩
    (by decide) (by decide) (by rfl)

/-- Parsing a batch whose well-formed prefix is followed by a malformed
line yields exactly that line's error: the comprehension aborts there. -/
theorem parse_all_error_of_first (pre post : List String) (bad : String)
    (hpre : ∀ l ∈ pre, 3 ≤ l.data.count ' ') (hbad : bad.data.count ' ' < 3) :
    parse_all (pre ++ bad :: post)
      = .error ("Log line '" ++ bad ++ "' is not in the expected format.") := by
  induction pre with
  | nil =>
    rw [List.nil_append]
    simp only [parse_all]
    rw [parse_error_of_count bad hbad]
  | cons l pre ih =>
    obtain ⟨e, he⟩ := parse_ok_of_count l (hpre l (by simp))
    have hrest := ih (fun x hx => hpre x (by simp [hx]))
    rw [List.cons_append]
    simp only [parse_all]
    rw [he, hrest]

/-- C8: a run whose input holds a malformed line (fewer than three space
characters, hence fewer than four fields) fails with the error for the
first such line and emits no output at all. -/
theorem pipeline_aborts_on_first_malformed (pre post : List String) (bad : String)
    (arg : Option String)
    (hpre : ∀ l ∈ pre, 3 ≤ l.data.count ' ') (hbad : bad.data.count ' ' < 3) :
    run_pipeline (pre ++ bad :: post) arg
      = .error ("Log line '" ++ bad ++ "' is not in the expected format.") := by
  have h := parse_all_error_of_first pre post bad hpre hbad
  unfold run_pipeline
  rw [h]
  rfl

/-- Witness for pipeline_aborts_on_first_malformed: a two-line input whose
second line is malformed fails with that line's error. -/
theorem pipeline_aborts_witness :
    run_pipeline (["2024-01-01 10:00:00 INFO started"] ++ "bad line" :: []) none
      = .error ("Log line '" ++ "bad line" ++ "' is not in the expected format.") :=
  pipeline_aborts_on_first_malformed ["2024-01-01 10:00:00 INFO started"] [] "bad line" none
    (by decide) (by decide)

end LogParser
